import Mathlib

/-!
Verification development for the `connectomestats` permutation-testing command
(cmd/connectomestats.cpp): shallow embedding of its data flow and of the
statistical reductions it relies on, with theorems settling the specified
properties.

Real values are modelled as rationals (`ℚ`); a possibly non-finite
observation entry (NaN/Inf in the C++ code) is modelled as `Option ℚ`,
with `none` standing for a non-finite value.
-/

namespace ConnectomeStats

/-- An observation value as stored in the subject data matrix: `none` models a
non-finite entry (NaN or infinity), `some q` a finite value `q`. -/
abbrev Val := Option ℚ

/-- The observation matrix: one row per subject, one entry per edge
(`matrix_type data (importer.size(), num_edges)` in `run()`). -/
abbrev ObsMatrix := List (List Val)

/-- Eigen's `Matrix::allFinite()`: `true` iff every entry of the matrix is
finite. -/
def allFinite (data : ObsMatrix) : Bool :=
  data.all (fun row => row.all Option.isSome)

/-- From `run()` (cmd/connectomestats.cpp line 258):
`const bool nans_in_data = data.allFinite();` — embedded exactly as written
(note: the right-hand side is NOT negated in the source). -/
def nans_in_data (data : ObsMatrix) : Bool := allFinite data

/-- The two GLM test variants the command can construct
(`GLM::TestVariable` / `GLM::TestFixed`). -/
inductive GLMTest where
  | TestVariable
  | TestFixed
deriving DecidableEq, Repr

/-- From `run()` (cmd/connectomestats.cpp lines 290-295): the GLM test is
`TestVariable` when `extra_columns.size() || nans_in_data`, else `TestFixed`.
`extra_columns` is the number of `-column` uses. -/
def select_glm_test (extra_columns : Nat) (data : ObsMatrix) : GLMTest :=
  if extra_columns ≠ 0 || nans_in_data data then
    GLMTest.TestVariable
  else
    GLMTest.TestFixed

/-- Modelled from the spec: the intended selection rule — the variable
variant is "required whenever extra per-element covariates or missing
observation data exist" (i.e. whenever the data is NOT all finite). -/
def select_glm_test_spec (extra_columns : Nat) (data : ObsMatrix) : GLMTest :=
  if extra_columns ≠ 0 || !allFinite data then
    GLMTest.TestVariable
  else
    GLMTest.TestFixed

/-- From `SubjectConnectomeImport::SubjectConnectomeImport` and `run()`:
configuration-time structure of a run, before any permutation executes.
`subject_sizes` holds `importer[i]->size()` for each subject,
`algorithm` the enhancement-algorithm choice (0 = nbs, 1 = nbse, 2 = none),
`threshold` the optional `-threshold` value, `design_rows`/`design_cols`
the design-matrix shape, `extra_columns` the number of `-column` uses and
`hypothesis_cols` the column count of the loaded contrast matrix. -/
structure RunInput where
  subject_sizes : List Nat
  algorithm : Nat
  threshold : Option ℚ
  design_rows : Nat
  design_cols : Nat
  extra_columns : Nat
  hypothesis_cols : Nat
deriving Repr

/-- The enhancement strategies the command can instantiate
(`run()` lines 180-205). -/
inductive Enhancer where
  | NBS (threshold : ℚ)
  | TFCEWrapper (dh E H : ℚ)
  | PassThrough
deriving DecidableEq, Repr

/-- From `run()` (cmd/connectomestats.cpp lines 181-205): initialisation of
the enhancement algorithm. Case 0 (nbs) throws when no `-threshold` option
was given; case 1 (nbse) builds a TFCE wrapper (parameters defaulted here to
the TFCE_*_DEFAULT macros); case 2 is pass-through; anything else throws. -/
def enhancer_init (algorithm : Nat) (threshold : Option ℚ) :
    Except String Enhancer :=
  match algorithm with
  | 0 =>
      match threshold with
      | none => Except.error "For NBS algorithm, -threshold option must be provided"
      | some t => Except.ok (Enhancer.NBS t)
  | 1 => Except.ok (Enhancer.TFCEWrapper (1/10) (2/5) 3)
  | 2 => Except.ok Enhancer.PassThrough
  | _ => Except.error "Unknown enhancement algorithm"

/-- `importer[0]->size()`: the element count of the first subject. -/
def first_size (inp : RunInput) : Nat := inp.subject_sizes.headD 0

/-- From `run()` (lines 169-172): the check that every subject's connectome
vector has the same length as the first subject's. -/
def sizes_ok (inp : RunInput) : Bool :=
  inp.subject_sizes.all (fun s => s = first_size inp)

/-- From `run()`: the sequence of fatal checks executed before any
permutation runs, in source order — (1) per-subject connectome size against
the first subject (lines 169-172), (2) enhancement-algorithm initialisation
(lines 181-205), (3) design-matrix row count against the subject count
(lines 211-213), (4) contrast-matrix column count against the total factor
count `design.cols() + extra_columns.size()` (lines 236-241). An `Except.ok`
value carries the enhancer; only then does the program go on to construct the
GLM test and run permutations. -/
def run_config (inp : RunInput) : Except String Enhancer :=
  if ¬ sizes_ok inp then
    Except.error "Size of connectome for subject does not match that of first subject"
  else
    match enhancer_init inp.algorithm inp.threshold with
    | Except.error e => Except.error e
    | Except.ok enh =>
        if inp.design_rows ≠ inp.subject_sizes.length then
          Except.error "number of subjects does not match number of rows in design matrix"
        else if inp.hypothesis_cols ≠ inp.design_cols + inp.extra_columns then
          Except.error "the number of columns in the contrast matrix does not equal the number of columns in the design matrix"
        else
          Except.ok enh

/-- The number of permutations the run executes: zero when configuration
fails, the requested count `n` otherwise (the permutation loop of
`Stats::PermTest::run_permutations` is only reached on a fully-configured
run). -/
def permutations_executed (inp : RunInput) (n : Nat) : Nat :=
  match run_config inp with
  | Except.error _ => 0
  | Except.ok _ => n

/-! ### Permutation-test reduction and p-values

`Stats::PermTest::run_permutations` and `Math::Stats::fwe_pvalue` live in
headers outside this repository snapshot; the reductions below are modelled
from the spec (§4.4, §4.5). A completed run is represented, for one
hypothesis, by the list `perms` of per-permutation enhanced statistic
vectors (permutation 0 being the identity arrangement) together with the
observed enhanced vector `obs`. -/

/-- Maximum of a list of rationals (0 for the empty list; every permutation
row the orchestrator produces is non-empty). -/
def listMax : List ℚ → ℚ
  | [] => 0
  | x :: xs => xs.foldl max x

/-- Modelled from the spec (§4.4): the null distribution entry for one
permutation is "the maximum enhanced statistic observed in permutation i". -/
def null_dist_entry (p : List ℚ) : ℚ := listMax p

/-- Modelled from the spec (§4.4): `ExceedanceCounts` at element `e` — over
all permutations, the number of permutations "whose permuted enhanced value
≥ observed enhanced value at that element". -/
def exceedance_count (perms : List (List ℚ)) (obs : List ℚ) (e : Nat) : Nat :=
  (perms.filter (fun p => obs.getD e 0 ≤ p.getD e 0)).length

/-- Modelled from the spec (§4.5): the count feeding the corrected (FWE)
p-value at element `e` — the "count of null values ≥ observed value". -/
def fwe_count (perms : List (List ℚ)) (obs : List ℚ) (e : Nat) : Nat :=
  (perms.filter (fun p => obs.getD e 0 ≤ null_dist_entry p)).length

/-- Modelled from the spec (§4.5): uncorrected p-value at element `e`, the
exceedance count divided by the permutation count `N = perms.length`. -/
def uncorrected_pvalue (perms : List (List ℚ)) (obs : List ℚ) (e : Nat) : ℚ :=
  (exceedance_count perms obs e : ℚ) / (perms.length : ℚ)

/-- Modelled from the spec (§4.5): corrected (FWE) p-value at element `e`,
the count of null-distribution values ≥ the observed value, divided by `N`,
"with the observed (identity) permutation counted as part of its own null
distribution". -/
def fwe_pvalue (perms : List (List ℚ)) (obs : List ℚ) (e : Nat) : ℚ :=
  (fwe_count perms obs e : ℚ) / (perms.length : ℚ)

/-! ### Strong versus per-hypothesis FWE

With several hypotheses a completed run is the list `stats` of
per-permutation data, each a list (one entry per hypothesis) of per-element
enhanced vectors. -/

/-- Modelled from the spec (§4.4): under "strong" FWE the null distribution
collapses across all hypotheses into a single column — "one global maximum
per permutation". -/
def strong_null_dist (stats : List (List (List ℚ))) : List ℚ :=
  stats.map (fun row => listMax row.flatten)

/-- Modelled from the spec (§4.4): without "strong" FWE the null
distribution has one column per hypothesis; column `h` holds, per
permutation, the maximum enhanced statistic for hypothesis `h`. -/
def null_dist_col (stats : List (List (List ℚ))) (h : Nat) : List ℚ :=
  stats.map (fun row => listMax (row.getD h []))

/-- How the command reacts to a configuration at the `-strong` check. -/
inductive StrongCheck where
  | warnAndProceed
  | proceed
deriving DecidableEq, Repr

/-- From `run()` (cmd/connectomestats.cpp lines 319-322): `-strong` with a
single hypothesis emits `WARN(...)` and continues; every other combination
proceeds silently. No branch throws. -/
def strong_single_hypothesis_check (fwe_strong : Bool) (num_hypotheses : Nat) :
    StrongCheck :=
  if fwe_strong && num_hypotheses == 1 then StrongCheck.warnAndProceed
  else StrongCheck.proceed

/-! ### Enhancement strategies

`Connectome::Enhance::*` lives in headers outside this snapshot; the
strategy semantics are modelled from the spec (§4.2). Topology: element `i`
corresponds to the node pair `pairs[i]`; two surviving elements are
connected when their node pairs share a node. -/

/-- Modelled from the spec (§4.2): two node pairs are linked when they share
a node. -/
def sharesNode (p q : Nat × Nat) : Bool :=
  p.1 == q.1 || p.1 == q.2 || p.2 == q.1 || p.2 == q.2

/-- Modelled from the spec (§4.2): elements `i` and `j` are adjacent when
both survive the threshold and their node pairs share a node. -/
def adjacent (pairs : List (Nat × Nat)) (surv : List Bool) (i j : Nat) : Bool :=
  i != j && surv.getD i false && surv.getD j false &&
    sharesNode (pairs.getD i (0, 0)) (pairs.getD j (0, 0))

/-- Fuel-bounded closure of a set of element indices under adjacency; fuel
`pairs.length` suffices since each growing step adds at least one index. -/
def growComponent (pairs : List (Nat × Nat)) (surv : List Bool) :
    Nat → List Nat → List Nat
  | 0, acc => acc
  | fuel + 1, acc =>
      let next := (List.range pairs.length).filter
        (fun j => !acc.contains j && acc.any (fun i => adjacent pairs surv i j))
      match next with
      | [] => acc
      | _ => growComponent pairs surv fuel (acc ++ next)

/-- Modelled from the spec (§4.2): the size of the connected component of
surviving element `i`. -/
def component_size (pairs : List (Nat × Nat)) (surv : List Bool) (i : Nat) : Nat :=
  (growComponent pairs surv pairs.length [i]).length

/-- Modelled from the spec (§4.2), graph-threshold (NBS) strategy:
thresholds the raw statistic at the fixed value, computes
connected-component sizes of surviving elements over the node graph, and
assigns each surviving element its component's size; elements below
threshold get 0. -/
def nbs_enhance (t : ℚ) (pairs : List (Nat × Nat)) (v : List ℚ) : List ℚ :=
  let surv := v.map (fun x => decide (t ≤ x))
  (List.range v.length).map (fun i =>
    if t ≤ v.getD i 0 then (component_size pairs surv i : ℚ) else 0)

/-- Modelled from the spec (§4.2): the enhancement dispatch. The
pass-through strategy "returns the raw statistic unchanged"; the
graph-threshold strategy applies `nbs_enhance`. The threshold-free integral
uses fractional real exponents evaluated in floating point and no claim in
this development depends on its value, so that branch is left unspecified
(`none`). -/
def enhance (enh : Enhancer) (pairs : List (Nat × Nat)) (v : List ℚ) :
    Option (List ℚ) :=
  match enh with
  | Enhancer.PassThrough => some v
  | Enhancer.NBS t => some (nbs_enhance t pairs v)
  | Enhancer.TFCEWrapper _ _ _ => none

/-! ### Statistic reporting -/

/-- From `run()` (cmd/connectomestats.cpp lines 308-313): when writing the
per-edge statistic, an F-type hypothesis column is saved as
`default_output.col(i).array().square()` (the internally held value follows
the square-root convention), while a t-type column is saved as-is. -/
def reported_statistic (is_F : Bool) (default_output : List ℚ) : List ℚ :=
  if is_F then default_output.map (fun x => x ^ 2) else default_output

/-! ### Connectome import

`SubjectConnectomeImport`'s constructor is in this snapshot
(cmd/connectomestats.cpp lines 127-137); the `Connectome::check`,
`Connectome::is_directed`, `Connectome::to_upper` and `Mat2Vec` helpers it
calls are not, and are modelled from the spec and from the constructor's
use of them. A connectome matrix is a list of rows of rationals. -/

abbrev CMatrix := List (List ℚ)

/-- Entry `(i, j)` of a connectome matrix (0 outside the stored shape). -/
def entry (M : CMatrix) (i j : Nat) : ℚ := (M.getD i []).getD j 0

/-- Modelled from the spec: `Connectome::check` validates the matrix shape
(square). -/
def is_square (M : CMatrix) : Bool :=
  M.all (fun row => row.length == M.length)

/-- Modelled from the spec: `Connectome::is_directed` — the matrix is
directed when it is not symmetric, i.e. some entry `(i, j)` differs from
`(j, i)`. -/
def is_directed (M : CMatrix) : Bool :=
  (List.range M.length).any (fun i =>
    (List.range M.length).any (fun j => decide (entry M i j ≠ entry M j i)))

/-- Modelled from the spec: `Connectome::to_upper` — converts the matrix to
its upper-triangular form, keeping entries on or above the diagonal and
zeroing those below. -/
def to_upper (M : CMatrix) : CMatrix :=
  (List.range M.length).map (fun i =>
    (List.range M.length).map (fun j => if i ≤ j then entry M i j else 0))

/-- Modelled from the spec: `Mat2Vec::M2V` — flattens the upper triangle
(entries with `i ≤ j`, row-major) into the per-edge vector. -/
def M2V (M : CMatrix) : List ℚ :=
  ((List.range M.length).map (fun i =>
    ((List.range M.length).filter (fun j => i ≤ j)).map (fun j => entry M i j))).flatten

/-- From `SubjectConnectomeImport::SubjectConnectomeImport`
(cmd/connectomestats.cpp lines 127-137): load, `Connectome::check`, reject
directed matrices, convert to upper-triangular form and flatten via
`Mat2Vec::M2V`. -/
def SubjectConnectomeImport (M : CMatrix) : Except String (List ℚ) :=
  if ¬ is_square M then
    Except.error "Connectome::check failed"
  else if is_directed M then
    Except.error "Connectome is a directed matrix"
  else
    Except.ok (M2V (to_upper M))

/-- The seed of a left fold by `max` is bounded by the fold's result. -/
theorem le_foldl_max (t : List ℚ) : ∀ a : ℚ, a ≤ t.foldl max a := by
  induction t with
  | nil => intro a; simp
  | cons b t ih =>
      intro a
      have h1 : a ≤ max a b := le_max_left a b
      exact h1.trans (ih (max a b))

/-- Every member of a list is bounded by the fold of `max` over it. -/
theorem mem_le_foldl_max {t : List ℚ} {x : ℚ} (hx : x ∈ t) :
    ∀ a : ℚ, x ≤ t.foldl max a := by
  induction t with
  | nil => cases hx
  | cons b t ih =>
      intro a
      rcases List.mem_cons.mp hx with h | h
      · subst h
        have h1 : x ≤ max a x := le_max_right a x
        exact h1.trans (le_foldl_max t (max a x))
      · exact ih h (max a b)

/-- Every member of a list is bounded by `listMax` of that list. -/
theorem le_listMax {l : List ℚ} {x : ℚ} (hx : x ∈ l) : x ≤ listMax l := by
  cases l with
  | nil => cases hx
  | cons a t =>
      rcases List.mem_cons.mp hx with h | h
      · subst h; exact le_foldl_max t x
      · exact mem_le_foldl_max h a

/-- An in-range `getD` entry is bounded by the row's `listMax`. -/
theorem getD_le_listMax {p : List ℚ} {e : Nat} (he : e < p.length) :
    p.getD e 0 ≤ listMax p := by
  have hmem : p.getD e 0 ∈ p := by
    rw [List.getD_eq_getElem p 0 he]
    exact List.getElem_mem he
  exact le_listMax hmem

/-- Filtering with a pointwise-weaker predicate yields no more elements. -/
theorem length_filter_le_of_imp {α : Type} (l : List α) (p q : α → Bool)
    (h : ∀ x ∈ l, p x = true → q x = true) :
    (l.filter p).length ≤ (l.filter q).length := by
  induction l with
  | nil => simp
  | cons a t ih =>
      have ht : ∀ x ∈ t, p x = true → q x = true := by
        intro x hx; exact h x (List.mem_cons_of_mem a hx)
      by_cases hp : p a = true
      · have hq : q a = true := h a (List.mem_cons_self a t) hp
        simp [List.filter_cons, hp, hq]
        exact ih ht
      · have hp' : p a = false := by
          cases hpa : p a with
          | false => rfl
          | true => exact absurd hpa hp
        simp only [List.filter_cons, hp']
        cases hq : q a with
        | false => exact ih ht
        | true =>
            simp only [if_pos rfl, List.length_cons]
            exact (ih ht).trans (Nat.le_succ _)

/-! ### Claim theorems -/

/-- C1: the claim says an input with one subject's element value set to
non-finite selects the variable-variant GLM test. The code
(`const bool nans_in_data = data.allFinite();`, line 258, missing the
negation) does the opposite: at the failing input — a 2-subject,
2-edge observation matrix with one non-finite entry and no extra columns —
`select_glm_test` picks `TestFixed`, while the spec-modelled rule picks
`TestVariable`; symmetrically, an all-finite input picks `TestVariable`. -/
theorem C1_nans_in_data_inverted :
    select_glm_test 0 [[some 1, none], [some 2, some 3]] = GLMTest.TestFixed ∧
    select_glm_test_spec 0 [[some 1, none], [some 2, some 3]] = GLMTest.TestVariable ∧
    select_glm_test 0 [[some 1, some 4], [some 2, some 3]] = GLMTest.TestVariable := by
  refine ⟨rfl, rfl, rfl⟩

/-- C2: for every element, over any completed permutation run, the
uncorrected p-value (exceedance count over `N`) is at most the corrected
(FWE) p-value (null-distribution count over `N`). -/
theorem C2_uncorrected_le_corrected (perms : List (List ℚ)) (obs : List ℚ)
    (e : Nat) (he : ∀ p ∈ perms, e < p.length) :
    uncorrected_pvalue perms obs e ≤ fwe_pvalue perms obs e := by
  have hcount : exceedance_count perms obs e ≤ fwe_count perms obs e := by
    apply length_filter_le_of_imp
    intro p hp hle
    have hle' : obs.getD e 0 ≤ p.getD e 0 := by
      simpa using hle
    have hmax : p.getD e 0 ≤ listMax p := getD_le_listMax (he p hp)
    simpa [null_dist_entry] using hle'.trans hmax
  rcases Nat.eq_zero_or_pos perms.length with h0 | hpos
  · have hnil : perms = [] := List.length_eq_zero.mp h0
    subst hnil
    simp [uncorrected_pvalue, fwe_pvalue, exceedance_count, fwe_count]
  · have hN : (0 : ℚ) < (perms.length : ℚ) := by exact_mod_cast hpos
    have hcast : (exceedance_count perms obs e : ℚ) ≤ (fwe_count perms obs e : ℚ) := by
      exact_mod_cast hcount
    exact (div_le_div_iff_of_pos_right hN).mpr hcast

/-- Witness for C2 at a concrete run: two permutations over two elements. -/
theorem C2_uncorrected_le_corrected_witness :
    uncorrected_pvalue [[1, 2], [3, 4]] [2, 1] 0 ≤
      fwe_pvalue [[1, 2], [3, 4]] [2, 1] 0 :=
  C2_uncorrected_le_corrected [[1, 2], [3, 4]] [2, 1] 0 (by decide)

/-- C3: when the observed (identity) permutation is part of the null
distribution and the element index addresses a real element, the corrected
p-value lies in `[1/N, 1]` and is never zero. -/
theorem C3_fwe_pvalue_range (perms : List (List ℚ)) (obs : List ℚ) (e : Nat)
    (hobs : obs ∈ perms) (he : e < obs.length) :
    1 / (perms.length : ℚ) ≤ fwe_pvalue perms obs e ∧
    fwe_pvalue perms obs e ≤ 1 ∧ fwe_pvalue perms obs e ≠ 0 := by
  have hne : perms ≠ [] := List.ne_nil_of_mem hobs
  have hlen : 0 < perms.length := List.length_pos.mpr hne
  have hN : (0 : ℚ) < (perms.length : ℚ) := by exact_mod_cast hlen
  have hmemf : obs ∈ perms.filter (fun p => obs.getD e 0 ≤ null_dist_entry p) := by
    refine List.mem_filter.mpr ⟨hobs, ?_⟩
    simpa [null_dist_entry] using getD_le_listMax he
  have hone : 1 ≤ fwe_count perms obs e := by
    have : 0 < (perms.filter (fun p => obs.getD e 0 ≤ null_dist_entry p)).length :=
      List.length_pos.mpr (List.ne_nil_of_mem hmemf)
    simpa [fwe_count] using this
  have hle : fwe_count perms obs e ≤ perms.length := by
    simpa [fwe_count] using
      List.length_filter_le (fun p => obs.getD e 0 ≤ null_dist_entry p) perms
  have hlow : 1 / (perms.length : ℚ) ≤ fwe_pvalue perms obs e := by
    unfold fwe_pvalue
    exact (div_le_div_iff_of_pos_right hN).mpr (by exact_mod_cast hone)
  refine ⟨hlow, ?_, ?_⟩
  · unfold fwe_pvalue
    have : (fwe_count perms obs e : ℚ) / (perms.length : ℚ) ≤
        (perms.length : ℚ) / (perms.length : ℚ) :=
      (div_le_div_iff_of_pos_right hN).mpr (by exact_mod_cast hle)
    simpa [div_self (ne_of_gt hN)] using this
  · have hpos : 0 < fwe_pvalue perms obs e :=
      lt_of_lt_of_le (by positivity) hlow
    exact ne_of_gt hpos

/-- Witness for C3 at a concrete run: the identity permutation `[1, 2]` sits
in its own two-permutation null distribution. -/
theorem C3_fwe_pvalue_range_witness :
    1 / (([[1, 2], [3, 4]] : List (List ℚ)).length : ℚ) ≤
        fwe_pvalue [[1, 2], [3, 4]] [1, 2] 0 ∧
    fwe_pvalue [[1, 2], [3, 4]] [1, 2] 0 ≤ 1 ∧
    fwe_pvalue [[1, 2], [3, 4]] [1, 2] 0 ≠ 0 :=
  C3_fwe_pvalue_range [[1, 2], [3, 4]] [1, 2] 0 (by decide) (by decide)

/-- C4: whenever subject counts disagree — some subject's element vector
differing in length from the first subject's, or the design-matrix row count
differing from the number of subjects — configuration fails with a fatal
error and no permutation is executed. -/
theorem C4_shape_mismatch_fatal (inp : RunInput) (n : Nat)
    (h : sizes_ok inp = false ∨ inp.design_rows ≠ inp.subject_sizes.length) :
    (∃ msg, run_config inp = Except.error msg) ∧
    permutations_executed inp n = 0 := by
  have herr : ∃ msg, run_config inp = Except.error msg := by
    rcases h with hsz | hrows
    · exact ⟨"Size of connectome for subject does not match that of first subject",
        by simp [run_config, hsz]⟩
    · by_cases hsz : sizes_ok inp = true
      · cases henh : enhancer_init inp.algorithm inp.threshold with
        | error e => exact ⟨e, by simp [run_config, hsz, henh]⟩
        | ok enh =>
            exact ⟨"number of subjects does not match number of rows in design matrix",
              by simp [run_config, hsz, henh, hrows]⟩
      · have hsz' : sizes_ok inp = false := by
          cases hval : sizes_ok inp with
          | false => rfl
          | true => exact absurd hval hsz
        exact ⟨"Size of connectome for subject does not match that of first subject",
          by simp [run_config, hsz']⟩
  refine ⟨herr, ?_⟩
  obtain ⟨msg, hmsg⟩ := herr
  simp [permutations_executed, hmsg]

/-- Witness for C4: three subjects but a four-row design matrix. -/
theorem C4_shape_mismatch_fatal_witness :
    (∃ msg, run_config ⟨[5, 5, 5], 2, none, 4, 2, 0, 2⟩ = Except.error msg) ∧
    permutations_executed ⟨[5, 5, 5], 2, none, 4, 2, 0, 2⟩ 100 = 0 :=
  C4_shape_mismatch_fatal ⟨[5, 5, 5], 2, none, 4, 2, 0, 2⟩ 100 (by decide)

/-- C5: selecting the graph-threshold (NBS) strategy without a `-threshold`
value fails at configuration time with the missing-required-parameter error
(stated past the earlier connectome-size check, which precedes it in source
order). -/
theorem C5_nbs_missing_threshold (inp : RunInput)
    (halg : inp.algorithm = 0) (hthr : inp.threshold = none)
    (hsz : sizes_ok inp = true) :
    run_config inp =
      Except.error "For NBS algorithm, -threshold option must be provided" ∧
    permutations_executed inp n = 0 := by
  have hcfg : run_config inp =
      Except.error "For NBS algorithm, -threshold option must be provided" := by
    simp [run_config, hsz, enhancer_init, halg, hthr]
  exact ⟨hcfg, by simp [permutations_executed, hcfg]⟩

/-- Witness for C5: NBS (algorithm 0) with no threshold option. -/
theorem C5_nbs_missing_threshold_witness :
    run_config ⟨[5, 5], 0, none, 2, 2, 0, 2⟩ =
      Except.error "For NBS algorithm, -threshold option must be provided" ∧
    permutations_executed ⟨[5, 5], 0, none, 2, 2, 0, 2⟩ 100 = 0 :=
  C5_nbs_missing_threshold ⟨[5, 5], 0, none, 2, 2, 0, 2⟩ rfl rfl (by decide)

/-- C6: `-strong` with exactly one hypothesis does not fail — the check
yields a warning and the run proceeds — and the collapsed ("strong") null
distribution coincides with the single per-hypothesis null-distribution
column, so behaviour is identical to per-hypothesis FWE. -/
theorem C6_strong_single_hypothesis (fwe_strong : Bool) (nh : Nat)
    (stats : List (List (List ℚ)))
    (hs : fwe_strong = true) (h1 : nh = 1)
    (hrow : ∀ row ∈ stats, row.length = 1) :
    strong_single_hypothesis_check fwe_strong nh = StrongCheck.warnAndProceed ∧
    strong_null_dist stats = null_dist_col stats 0 := by
  subst hs h1
  refine ⟨rfl, ?_⟩
  unfold strong_null_dist null_dist_col
  apply List.map_congr_left
  intro row hmem
  obtain ⟨v, rfl⟩ := List.length_eq_one.mp (hrow row hmem)
  simp

/-- Witness for C6: a two-permutation run over one hypothesis. -/
theorem C6_strong_single_hypothesis_witness :
    strong_single_hypothesis_check true 1 = StrongCheck.warnAndProceed ∧
    strong_null_dist [[[1, 2]], [[3, 4]]] = null_dist_col [[[1, 2]], [[3, 4]]] 0 :=
  C6_strong_single_hypothesis true 1 [[[1, 2]], [[3, 4]]] rfl rfl (by decide)

/-- C7: a contrast matrix whose column count differs from the total factor
count (design columns plus extra per-element covariate columns) is a fatal
error raised before any testing, provided the earlier checks pass. -/
theorem C7_contrast_cols_mismatch (inp : RunInput) (n : Nat)
    (hsz : sizes_ok inp = true)
    (henh : ∃ enh, enhancer_init inp.algorithm inp.threshold = Except.ok enh)
    (hrows : inp.design_rows = inp.subject_sizes.length)
    (hcols : inp.hypothesis_cols ≠ inp.design_cols + inp.extra_columns) :
    run_config inp = Except.error
      "the number of columns in the contrast matrix does not equal the number of columns in the design matrix" ∧
    permutations_executed inp n = 0 := by
  obtain ⟨enh, henh'⟩ := henh
  have hcfg : run_config inp = Except.error
      "the number of columns in the contrast matrix does not equal the number of columns in the design matrix" := by
    simp [run_config, hsz, henh', hrows, hcols]
  exact ⟨hcfg, by simp [permutations_executed, hcfg]⟩

/-- Witness for C7: two design columns plus one extra covariate column, but
a two-column contrast matrix. -/
theorem C7_contrast_cols_mismatch_witness :
    run_config ⟨[5, 5], 2, none, 2, 2, 1, 2⟩ = Except.error
      "the number of columns in the contrast matrix does not equal the number of columns in the design matrix" ∧
    permutations_executed ⟨[5, 5], 2, none, 2, 2, 1, 2⟩ 100 = 0 :=
  C7_contrast_cols_mismatch ⟨[5, 5], 2, none, 2, 2, 1, 2⟩ 100 (by decide)
    ⟨Enhancer.PassThrough, rfl⟩ rfl (by decide)

/-- C8: the "none" strategy (algorithm case 2) instantiates the
pass-through enhancer, and the pass-through enhancer maps every raw
per-element statistic vector to itself (identity law). -/
theorem C8_passthrough_identity (t : Option ℚ) (pairs : List (Nat × Nat))
    (v : List ℚ) :
    enhancer_init 2 t = Except.ok Enhancer.PassThrough ∧
    enhance Enhancer.PassThrough pairs v = some v :=
  ⟨rfl, rfl⟩

/-- C9: for an F-type hypothesis the reported F-value column is the square
of the internally held (square-root convention) column, and hence every
reported F-value is non-negative — for the identity arrangement and for any
permutation's would-be statistic vector alike. -/
theorem C9_f_statistic (default_output : List ℚ) :
    reported_statistic true default_output =
      default_output.map (fun x => x ^ 2) ∧
    ∀ x ∈ reported_statistic true default_output, 0 ≤ x := by
  refine ⟨rfl, ?_⟩
  intro x hx
  simp only [reported_statistic, if_true, List.mem_map] at hx
  obtain ⟨y, _, rfl⟩ := hx
  positivity

/-- Witness for C9: a held vector with a negative entry still reports
non-negative squared F-values. -/
theorem C9_f_statistic_witness :
    reported_statistic true [3, -2] = [9, 4] ∧
    (0 : ℚ) ≤ (reported_statistic true [3, -2]).getD 0 0 :=
  ⟨(C9_f_statistic [3, -2]).1.trans (by decide),
   (C9_f_statistic [3, -2]).2 _ (by decide)⟩

/-- C10: importing a square connectome matrix fails with an error exactly
when the matrix is directed (not symmetric); an accepted matrix is
symmetric and its data is the flattened upper-triangular form. -/
theorem C10_connectome_import (M : CMatrix) (hsq : is_square M = true) :
    (is_directed M = true →
      SubjectConnectomeImport M = Except.error "Connectome is a directed matrix") ∧
    (is_directed M = false →
      SubjectConnectomeImport M = Except.ok (M2V (to_upper M)) ∧
      ∀ i j, i < M.length → j < M.length → entry M i j = entry M j i) := by
  constructor
  · intro hd
    simp [SubjectConnectomeImport, hsq, hd]
  · intro hd
    refine ⟨by simp [SubjectConnectomeImport, hsq, hd], ?_⟩
    intro i j hi hj
    by_contra hne
    have hdir : is_directed M = true := by
      simp only [is_directed, List.any_eq_true, List.mem_range,
        decide_eq_true_eq]
      exact ⟨i, hi, j, hj, hne⟩
    rw [hdir] at hd
    cases hd

/-- Witness for C10: the symmetric matrix `[[0,1],[1,0]]` imports to its
flattened upper triangle, while the asymmetric `[[0,1],[2,0]]` is
rejected as directed. -/
theorem C10_connectome_import_witness :
    SubjectConnectomeImport [[0, 1], [1, 0]] = Except.ok [0, 1, 0] ∧
    SubjectConnectomeImport [[0, 1], [2, 0]] =
      Except.error "Connectome is a directed matrix" :=
  ⟨(((C10_connectome_import [[0, 1], [1, 0]] (by decide)).2 (by decide)).1).trans
      (congrArg Except.ok (by decide)),
   (C10_connectome_import [[0, 1], [2, 0]] (by decide)).1 (by decide)⟩

end ConnectomeStats
